import Mathlib

/-!
Verification of the investment-spreadsheet SQL generator
(`parse_investments.py`).

The development shallowly embeds the six value-cleaning functions
(`clean_currency`, `clean_percentage`, `clean_date`, `clean_boolean`,
`clean_integer`, `clean_decimal`) and the row-emitting SQL generation
loop.  Raw spreadsheet cells are modelled by `RawValue`
(missing / text / native number), Python floats by `FloatVal`
(finite rational, signed infinity, NaN), and the uncatchable
`OverflowError` raised by `int(float("inf"))` by an explicit error
outcome (`IntResult.error` resp. `Except.error`).
-/

/-- ASCII whitespace characters matched by the Python regex class `\s`
and stripped by `float()` and `str.strip()`: space, tab, newline,
carriage return, vertical tab, form feed. -/
def pyWs (c : Char) : Bool :=
  c = ' ' || c = Char.ofNat 9 || c = Char.ofNat 10 || c = Char.ofNat 13 ||
  c = Char.ofNat 11 || c = Char.ofNat 12

/-- Decimal digit test, as used by Python number parsing. -/
def isDig (c : Char) : Bool := 48 ≤ c.toNat && c.toNat ≤ 57

/-- Numeric value of a decimal digit character. -/
def digVal (c : Char) : Nat := c.toNat - 48

/-- Character for a decimal digit. -/
def digChar (d : Nat) : Char := Char.ofNat (48 + d)

/-- Value of a most-significant-first digit string, the way a
left-to-right scan accumulates it. -/
def digitsVal (cs : List Char) : Nat :=
  cs.foldl (fun a c => a * 10 + digVal c) 0

/-- ASCII lower-casing of one character (models `str.lower()` on the
ASCII inputs this pipeline deals with). -/
def lowerAscii (c : Char) : Char :=
  if 65 ≤ c.toNat && c.toNat ≤ 90 then Char.ofNat (c.toNat + 32) else c

/-- Strip leading and trailing whitespace from a character list
(models `str.strip()` and the whitespace tolerance of `float()`). -/
def trimWs (cs : List Char) : List Char :=
  ((cs.dropWhile pyWs).reverse.dropWhile pyWs).reverse

/-- The single-quote character, needed for SQL literal quoting. -/
def squote : Char := Char.ofNat 39

/-- Result of a Python float conversion: a finite value (idealised as a
rational), one of the two infinities, or NaN. -/
inductive FloatVal where
  | finite (q : ℚ)
  | inf
  | neginf
  | nan
deriving DecidableEq

/-- Negation of a float value, for a leading minus sign. -/
def FloatVal.neg : FloatVal → FloatVal
  | .finite q => .finite (-q)
  | .inf => .neginf
  | .neginf => .inf
  | .nan => .nan

/-- Rational value of an unsigned decimal literal with integer-part
digits `ip`, fraction-part digits `fp` and decimal exponent `e`. -/
def ratOfParts (ip fp : List Char) (e : ℤ) : ℚ :=
  let n : ℤ := (digitsVal ip * 10 ^ fp.length + digitsVal fp : ℕ)
  if 0 ≤ e then mkRat (n * (10 : ℤ) ^ e.toNat) (10 ^ fp.length)
  else mkRat n (10 ^ fp.length * 10 ^ (-e).toNat)

/-- Parse the digit string of an exponent: nonempty, all digits. -/
def expDigits (cs : List Char) : Option Nat :=
  if cs ≠ [] && cs.all isDig then some (digitsVal cs) else none

/-- Parse an exponent suffix (after the `e`): optional sign then
nonempty digits. -/
def expPart : List Char → Option ℤ
  | '+' :: t => (expDigits t).map Int.ofNat
  | '-' :: t => (expDigits t).map (fun n => -(n : ℤ))
  | t => (expDigits t).map Int.ofNat

/-- After the integer digits: an optional decimal point followed by
fraction digits, returning the fraction digits and what remains. -/
def fracSplit : List Char → List Char × List Char
  | '.' :: t => (t.takeWhile isDig, t.dropWhile isDig)
  | r1 => ([], r1)

/-- Parse an unsigned decimal literal: digits, optional point and
fraction digits, optional exponent; at least one digit must be present
before the exponent.  Models the numeric part of Python `float()`. -/
def parseDec (cs : List Char) : Option ℚ :=
  let ip := cs.takeWhile isDig
  let fp := (fracSplit (cs.dropWhile isDig)).1
  let r2 := (fracSplit (cs.dropWhile isDig)).2
  if ip = [] ∧ fp = [] then none
  else
    match r2 with
    | [] => some (ratOfParts ip fp 0)
    | c :: t =>
      if c = 'e' || c = 'E' then (expPart t).map (ratOfParts ip fp)
      else none

/-- Parse an unsigned float body: the keywords `inf`, `infinity`, `nan`
(case-insensitively), or a decimal literal. -/
def parseUnsigned (cs : List Char) : Option FloatVal :=
  let l := cs.map lowerAscii
  if l = [ 'i', 'n', 'f'] || l = [ 'i', 'n', 'f', 'i', 'n', 'i', 't', 'y'] then
    some .inf
  else if l = [ 'n', 'a', 'n'] then some .nan
  else (parseDec cs).map .finite

/-- Python `float(s)` on a string: strip surrounding whitespace, accept
an optional sign, then an unsigned float body.  `none` models the
`ValueError` raised on malformed input. -/
def pyFloat (cs : List Char) : Option FloatVal :=
  match trimWs cs with
  | [] => parseUnsigned []
  | c :: rest =>
    if c = '+' then parseUnsigned rest
    else if c = '-' then (parseUnsigned rest).map FloatVal.neg
    else parseUnsigned (c :: rest)

instance {ε α : Type} [DecidableEq ε] [DecidableEq α] : DecidableEq (Except ε α) := fun a b =>
  match a, b with
  | .ok x, .ok y =>
    if h : x = y then isTrue (by rw [h]) else isFalse (fun hc => by cases hc; exact h rfl)
  | .error x, .error y =>
    if h : x = y then isTrue (by rw [h]) else isFalse (fun hc => by cases hc; exact h rfl)
  | .ok _, .error _ => isFalse (fun hc => by cases hc)
  | .error _, .ok _ => isFalse (fun hc => by cases hc)

/-- A raw spreadsheet cell as the script sees it: missing (NaN / None,
detected by `pd.isna`), a string, or a native (finite) number. -/
inductive RawValue where
  | missing
  | text (s : String)
  | num (q : ℚ)
deriving DecidableEq

/-- Truncation of a rational toward zero, the semantics of Python
`int()` applied to a finite float. -/
def truncInt (q : ℚ) : ℤ := q.num.tdiv q.den

/-- Characters removed by `re.sub(r'[,$\s]', '', ...)` in
`clean_currency`. -/
def currencyStrip (c : Char) : Bool := c = ',' || c = '$' || pyWs c

/-- The parenthesis adjustment of `clean_currency`: when the cleaned
string contains both `(` and `)`, every `(` becomes `-` and every `)`
is deleted. -/
def parenAdjust (cs : List Char) : List Char :=
  if '(' ∈ cs ∧ ')' ∈ cs then
    ((cs.map (fun c => if c = '(' then '-' else c)).filter (fun c => c ≠ ')'))
  else cs

/-- Embeds `clean_currency` (parse_investments.py lines 5–18): missing
or empty input is absent; a string is stripped of commas, dollar signs
and whitespace, parenthesis-adjusted, and parsed with `float`; any
other (native numeric) value is returned unchanged. -/
def clean_currency : RawValue → Option FloatVal
  | .missing => none
  | .text s =>
    if s = "" then none
    else pyFloat (parenAdjust (s.data.filter (fun c => !currencyStrip c)))
  | .num q => some (.finite q)

/-- Result type of `clean_percentage`, whose fall-through branch
returns the raw value itself: a float or the original string. -/
inductive PyVal where
  | float (v : FloatVal)
  | str (s : String)
deriving DecidableEq

/-- Embeds `clean_percentage` (lines 20–29): missing or empty input is
absent; a string containing a percent sign has all percent signs
removed and is parsed with `float` (absent on failure); any other
value — a percent-free string or a native number — is returned
unchanged by the final fall-through. -/
def clean_percentage : RawValue → Option PyVal
  | .missing => none
  | .text s =>
    if s = "" then none
    else if '%' ∈ s.data then
      (pyFloat (s.data.filter (fun c => c ≠ '%'))).map .float
    else some (.str s)
  | .num q => some (.float (.finite q))

/-- A calendar date as produced by `datetime.date`. -/
structure PyDate where
  year : Nat
  month : Nat
  day : Nat
deriving DecidableEq

/-- Gregorian leap-year test used by `datetime`. -/
def isLeap (y : Nat) : Bool := (y % 4 = 0 && y % 100 ≠ 0) || y % 400 = 0

/-- Number of days in a month. -/
def daysInMonth (y m : Nat) : Nat :=
  if m = 2 then (if isLeap y then 29 else 28)
  else if m = 4 ∨ m = 6 ∨ m = 9 ∨ m = 11 then 30
  else 31

/-- Validity condition enforced by the `datetime.date` constructor. -/
def validDate (y m d : Nat) : Prop :=
  1 ≤ y ∧ y ≤ 9999 ∧ 1 ≤ m ∧ m ≤ 12 ∧ 1 ≤ d ∧ d ≤ daysInMonth y m

instance (y m d : Nat) : Decidable (validDate y m d) := by
  unfold validDate; infer_instance

/-- Construct a date, `none` on the `ValueError` of an invalid one. -/
def mkDate (y m d : Nat) : Option PyDate :=
  if validDate y m d then some ⟨y, m, d⟩ else none

/-- Take one date field: the maximal digit run, then the expected
separator; returns the field and what follows the separator. -/
def sepSplit (sep : Char) (cs : List Char) : Option (List Char × List Char) :=
  match cs.dropWhile isDig with
  | s1 :: r1 => if s1 = sep then some (cs.takeWhile isDig, r1) else none
  | _ => none

/-- Split a candidate date string into three maximal digit runs
separated by `sep`, with nothing left over — the shape accepted by the
`strptime` regexes for the three formats used here. -/
def dateSplit (sep : Char) (cs : List Char) : Option (List Char × List Char × List Char) :=
  match sepSplit sep cs with
  | none => none
  | some (a, r1) =>
    match sepSplit sep r1 with
    | none => none
    | some (b, r3) =>
      if r3.dropWhile isDig = [] then some (a, b, r3.takeWhile isDig) else none

/-- `strptime(value, "%m/%d/%Y")`: 1–2 digit month, 1–2 digit day,
exactly 4 digit year, then date validation. -/
def parseMDY4 (cs : List Char) : Option PyDate :=
  match dateSplit '/' cs with
  | some (a, b, c) =>
    if 1 ≤ a.length ∧ a.length ≤ 2 ∧ 1 ≤ b.length ∧ b.length ≤ 2 ∧ c.length = 4 then
      mkDate (digitsVal c) (digitsVal a) (digitsVal b)
    else none
  | none => none

/-- Century rule of `strptime`'s `%y`: 00–68 map to 2000–2068, 69–99 to
1969–1999. -/
def y2kYear (n : Nat) : Nat := if n ≤ 68 then 2000 + n else 1900 + n

/-- `strptime(value, "%m/%d/%y")`: 1–2 digit month and day, exactly
2 digit year put through the century rule. -/
def parseMDY2 (cs : List Char) : Option PyDate :=
  match dateSplit '/' cs with
  | some (a, b, c) =>
    if 1 ≤ a.length ∧ a.length ≤ 2 ∧ 1 ≤ b.length ∧ b.length ≤ 2 ∧ c.length = 2 then
      mkDate (y2kYear (digitsVal c)) (digitsVal a) (digitsVal b)
    else none
  | none => none

/-- `strptime(value, "%Y-%m-%d")`: exactly 4 digit year, 1–2 digit
month and day. -/
def parseYMD (cs : List Char) : Option PyDate :=
  match dateSplit '-' cs with
  | some (a, b, c) =>
    if a.length = 4 ∧ 1 ≤ b.length ∧ b.length ≤ 2 ∧ 1 ≤ c.length ∧ c.length ≤ 2 then
      mkDate (digitsVal a) (digitsVal b) (digitsVal c)
    else none
  | none => none

/-- Embeds `clean_date` (lines 31–42): missing or empty input is
absent; a string is tried against the formats `%m/%d/%Y`, `%m/%d/%y`,
`%Y-%m-%d` in that order, the first success winning; anything else —
including every native number — falls through to `None`. -/
def clean_date : RawValue → Option PyDate
  | .missing => none
  | .text s =>
    if s = "" then none
    else parseMDY4 s.data <|> parseMDY2 s.data <|> parseYMD s.data
  | .num _ => none

/-- Lower-case and strip a string the way `clean_boolean` normalises
its input. -/
def lowerStrip (s : String) : List Char := trimWs (s.data.map lowerAscii)

/-- Embeds `clean_boolean` (lines 44–54): missing or empty input is
absent; a string is lower-cased and stripped and compared against the
recognised true and false sets; everything else is absent. -/
def clean_boolean : RawValue → Option Bool
  | .missing => none
  | .text s =>
    if s = "" then none
    else
      let v := lowerStrip s
      if v = [ 'y', 'e', 's'] ∨ v = [ 't', 'r', 'u', 'e'] ∨ v = [ '1'] then some true
      else if v = [ 'n', 'o'] ∨ v = [ 'f', 'a', 'l', 's', 'e'] ∨ v = [ '0'] then some false
      else none
  | .num _ => none

/-- Outcome of `clean_integer`: a normal return (`ok`, carrying absent
or an integer) or an uncaught exception escaping the function
(`int(float(...))` raises `OverflowError` on an infinite float, and the
`except (ValueError, TypeError)` clause does not catch it). -/
inductive IntResult where
  | ok (v : Option ℤ)
  | error
deriving DecidableEq

/-- Embeds `clean_integer` (lines 56–63): missing or empty input is
absent; otherwise `int(float(str(value)))` — a float parse followed by
truncation toward zero — with `ValueError` (unparseable strings, NaN)
caught and mapped to absent, but `OverflowError` on an infinite float
escaping uncaught. -/
def clean_integer : RawValue → IntResult
  | .missing => .ok none
  | .text s =>
    if s = "" then .ok none
    else
      match pyFloat s.data with
      | none => .ok none
      | some (.finite q) => .ok (some (truncInt q))
      | some .nan => .ok none
      | some .inf => .error
      | some .neginf => .error
  | .num q => .ok (some (truncInt q))

/-- Embeds `clean_decimal` (lines 65–72): missing or empty input is
absent; otherwise `float(str(value))`, absent on parse failure.  A
native number round-trips through its `str` form unchanged. -/
def clean_decimal : RawValue → Option FloatVal
  | .missing => none
  | .text s => if s = "" then none else pyFloat s.data
  | .num q => some (.finite q)

example : clean_currency (.text "$1,200.50") = some (.finite (mkRat 12005 10)) := by decide
example : clean_currency (.text "(500)") = some (FloatVal.finite 500).neg := by decide
example : clean_currency (.text "abc") = none := by decide
example : clean_percentage (.text "5.25%") = some (.float (.finite (mkRat 525 100))) := by decide
example : clean_percentage (.text "5.25") = some (.str "5.25") := by decide
example : clean_date (.text "01/15/2024") = some ⟨2024, 1, 15⟩ := by decide
example : clean_date (.text "01/15/24") = some ⟨2024, 1, 15⟩ := by decide
example : clean_date (.text "2024-01-15") = some ⟨2024, 1, 15⟩ := by decide
example : clean_date (.text "15/01/2024") = none := by decide
example : clean_boolean (.text "Yes") = some true := by decide
example : clean_boolean (.text "maybe") = none := by decide
example : clean_integer (.text "42.9") = .ok (some 42) := by decide
example : clean_integer (.text "-42.9") = .ok (some (-42)) := by decide
example : clean_integer (.text "xyz") = .ok none := by decide
example : clean_integer (.text "inf") = .error := by decide
example : clean_decimal (.text "3.5") = some (.finite (mkRat 7 2)) := by decide

/-- Most-significant-first decimal digits of a positive number, with
explicit fuel so that evaluation reduces in the kernel. -/
def natCharsAux : Nat → Nat → List Char
  | 0, _ => []
  | _ + 1, 0 => []
  | fuel + 1, n + 1 => natCharsAux fuel ((n + 1) / 10) ++ [digChar ((n + 1) % 10)]

/-- Python `str` of a nonnegative integer. -/
def natChars (m : Nat) : List Char :=
  if m = 0 then [ '0'] else natCharsAux m m

/-- Python `str(int)`: optional minus sign, then decimal digits. -/
def renderInt (n : ℤ) : List Char :=
  if n < 0 then '-' :: natChars n.natAbs else natChars n.natAbs

/-- Left-pad a digit string with zeros to the given length. -/
def padLeft (cs : List Char) (l : Nat) : List Char :=
  List.replicate (l - cs.length) '0' ++ cs

/-- Multiplicity of the prime `p` in `n`, computed with explicit
fuel. -/
def nuP (p : Nat) : Nat → Nat → Nat
  | 0, _ => 0
  | fuel + 1, n => if 2 ≤ p ∧ 1 ≤ n ∧ n % p = 0 then nuP p fuel (n / p) + 1 else 0

/-- Number of fractional digits needed to write a rational with
denominator `d` exactly in decimal (meaningful when `d` has only the
prime factors 2 and 5, which is the case for every parsed float). -/
def decExp (d : Nat) : Nat := max (nuP 2 d d) (nuP 5 d d)

/-- Digits of the scaled value `N` with a decimal point placed `k`
digits from the right (at least one digit on each side). -/
def renderNatFixed (N k : Nat) : List Char :=
  let cs := padLeft (natChars N) (k + 1)
  cs.take (cs.length - k) ++ '.' :: cs.drop (cs.length - k)

/-- Python `str` of a finite float in positional notation: sign, then
the shortest exact decimal expansion, always keeping at least one
fractional digit (`str(250000.0)` is `"250000.0"`). -/
def renderRat (q : ℚ) : List Char :=
  let k := max 1 (decExp q.den)
  let N := q.num.natAbs * 10 ^ k / q.den
  (if q.num < 0 then [ '-'] else []) ++ renderNatFixed N k

/-- Python `str` of a float value (`inf`, `-inf` and `nan` print as
those words). -/
def renderFloatVal : FloatVal → List Char
  | .finite q => renderRat q
  | .inf => [ 'i', 'n', 'f']
  | .neginf => [ '-', 'i', 'n', 'f']
  | .nan => [ 'n', 'a', 'n']

/-- Python `str(date)`: zero-padded `YYYY-MM-DD`. -/
def renderDate (d : PyDate) : List Char :=
  padLeft (natChars d.year) 4 ++ '-' ::
    (padLeft (natChars d.month) 2 ++ '-' :: padLeft (natChars d.day) 2)

/-- Python `str` of a raw cell value (used by the text-field branch of
the emitter): a missing cell is a float NaN. -/
def pyStr : RawValue → List Char
  | .missing => [ 'n', 'a', 'n']
  | .text s => s.data
  | .num q => renderRat q

/-- The `.replace("'", "''")` escaping of the text-field branch. -/
def escapeQuotes (cs : List Char) : List Char :=
  cs.flatMap (fun c => if c = squote then [squote, squote] else [c])

/-- Destination columns cleaned as currency (lines 194–197). -/
def currencyCols : List String :=
  ["proforma_revenue", "egi", "noi", "going_in_noi", "proforma_operating_expenses",
   "exp_tax_prop", "exp_prop_ins", "exp_utilities", "exp_rm", "exp_payroll",
   "exp_garbage", "exp_pm_fee_admin", "purchase_price", "down_payment",
   "appraised_value", "assessed_value", "debt1_initial", "debt_service"]

/-- Destination columns cleaned as percentages (line 201). -/
def percentageCols : List String :=
  ["going_in_cap_rate", "debt1_int_rate", "ltv_ratio", "dsv_ratio", "poverty_pct_below"]

/-- Destination columns cleaned as dates (line 205). -/
def dateCols : List String :=
  ["date_of_last_appraisal", "assessment_date", "maturity_date"]

/-- Destination columns cleaned as booleans (line 209). -/
def booleanCols : List String :=
  ["new_construction", "section_8_units", "ac_included"]

/-- Destination columns cleaned as integers (lines 213–215). -/
def integerCols : List String :=
  ["unit_total", "units", "comm_units", "beds", "half_baths", "walkscore",
   "built", "renovated_last", "building_sf", "building_sf_finished",
   "unit_sf_avg", "land_sf", "stories", "heat_sys_count", "br_0", "br_1",
   "br_2", "br_3", "br_4"]

/-- Destination columns cleaned as decimals (line 219). -/
def decimalCols : List String :=
  ["baths", "rooms", "parking_spots_count"]

/-- The static source-column to destination-column mapping
(lines 87–172), in its original order. -/
def column_mapping : List (String × String) :=
  [("Asset ID + Name", "asset_id_plus_name"), ("Asset ID", "asset_id"),
   ("Portfolio Name", "portfolio_name"), ("Name - Reducd", "name_reduced"),
   ("Name - CHFA", "name_chfa"), ("Address", "address"), ("City", "city"),
   ("State", "state"), ("ZIP Code", "zip_code"), ("Address - Full", "address_full"),
   ("Unit Total", "unit_total"), ("Units", "units"), ("Comm Units", "comm_units"),
   ("Beds", "beds"), ("Baths", "baths"), ("Half Baths", "half_baths"),
   ("Rooms", "rooms"), ("Property Type", "property_type"),
   ("Scope of Work - Orig", "scope_of_work"), ("New Const?", "new_construction"),
   ("Sect 8 Units?", "section_8_units"), ("PBV", "pbv"),
   ("Leasing Status - Initial", "leasing_status"), ("Owner LLC", "owner_llc"),
   ("Manager", "manager"), ("Owner LLC co", "owner_llc_co"), ("EIN", "ein"),
   ("Parcel ID", "parcel_id"), ("Census Tract", "census_tract"),
   ("Poverty - % Below", "poverty_pct_below"),
   ("Qualified Census Tract", "qualified_census_tract"), ("Walkscore", "walkscore"),
   ("Proforma Revenue", "proforma_revenue"), ("EGI", "egi"), ("NOI", "noi"),
   ("Going-in NOI", "going_in_noi"), ("Going-In Cap Rate", "going_in_cap_rate"),
   ("Proforma Operating Expenses", "proforma_operating_expenses"),
   ("Exp - Tax - Prop", "exp_tax_prop"), ("Exp - Prop Ins.", "exp_prop_ins"),
   ("Exp - Utilities", "exp_utilities"), ("Exp - R&M", "exp_rm"),
   ("Exp - Payroll", "exp_payroll"), ("Exp - Garbage", "exp_garbage"),
   ("Exp - PM Fee + Admin", "exp_pm_fee_admin"), ("Purchase Price", "purchase_price"),
   ("Down Payment", "down_payment"), ("APPRAISED VALUE", "appraised_value"),
   ("Date Of Last Appraisal", "date_of_last_appraisal"),
   ("Appraisal Firm", "appraisal_firm"), ("Assessed Value", "assessed_value"),
   ("Assessment Date", "assessment_date"), ("Debt1 - Initial", "debt1_initial"),
   ("Debt1 - Int Rate", "debt1_int_rate"), ("Maturity Date", "maturity_date"),
   ("LTV Ratio", "ltv_ratio"), ("DSV Ratio", "dsv_ratio"),
   ("Debt Service", "debt_service"), ("Mortgage Holder", "mortgage_holder"),
   ("Built", "built"), ("Renovated - Last", "renovated_last"),
   ("Building SF", "building_sf"), ("Building SF - Finished", "building_sf_finished"),
   ("Unit SF - Avg", "unit_sf_avg"), ("Land SF", "land_sf"), ("Stories", "stories"),
   ("Roof Type", "roof_type"), ("Roof Cover", "roof_cover"),
   ("Heat Fuel", "heat_fuel"), ("Heat Type", "heat_type"),
   ("Heat Sys Count", "heat_sys_count"), ("Cooking Fuel", "cooking_fuel"),
   ("AC Type - Marketing", "ac_type"), ("AC Included", "ac_included"),
   ("Parking Spots Count", "parking_spots_count"), ("BR - 0", "br_0"),
   ("BR - 1", "br_1"), ("BR - 2", "br_2"), ("BR - 3", "br_3"), ("BR - 4", "br_4"),
   ("Electric - Utility Company", "electric_utility_company"),
   ("Elect Account", "electric_account"), ("Gas - Utility Company", "gas_utility_company"),
   ("Gas Account", "gas_account")]

/-- A source row: a map from source column name to raw cell value. -/
def Row : Type := String → RawValue

/-- Render an optional numeric cleaning result the way the emitter
does: `str(cleaned_val) if cleaned_val is not None else 'NULL'`. -/
def optNum (r : Option FloatVal) : String :=
  match r with
  | some v => String.mk (renderFloatVal v)
  | none => "NULL"

/-- Render one cell for destination column `sqlCol` (the body of the
per-column dispatch, lines 190–226).  The error outcome models the
uncaught exception of the integer branch on an infinite float. -/
def renderCell (sqlCol : String) (v : RawValue) : Except Unit String :=
  if v = .missing ∨ v = .text "" then .ok "NULL"
  else if sqlCol ∈ currencyCols then .ok (optNum (clean_currency v))
  else if sqlCol ∈ percentageCols then
    .ok (match clean_percentage v with
      | some (.float fv) => String.mk (renderFloatVal fv)
      | some (.str s) => s
      | none => "NULL")
  else if sqlCol ∈ dateCols then
    .ok (match clean_date v with
      | some d => String.mk (squote :: (renderDate d ++ [squote]))
      | none => "NULL")
  else if sqlCol ∈ booleanCols then
    .ok (match clean_boolean v with
      | some true => "TRUE"
      | some false => "FALSE"
      | none => "NULL")
  else if sqlCol ∈ integerCols then
    match clean_integer v with
    | .error => .error ()
    | .ok none => .ok "NULL"
    | .ok (some n) => .ok (String.mk (renderInt n))
  else if sqlCol ∈ decimalCols then .ok (optNum (clean_decimal v))
  else .ok (String.mk (squote :: (escapeQuotes (pyStr v) ++ [squote])))

/-- The columns/values accumulation loop (lines 183–228): walk the
static mapping, and for every source column present in the input
append one destination column name and one rendered value. -/
def buildLists (cols : List String) (row : Row) :
    List (String × String) → Except Unit (List String × List String)
  | [] => .ok ([], [])
  | (ec, sc) :: rest =>
    if ec ∈ cols then do
      let v ← renderCell sc (row ec)
      let (cs, vs) ← buildLists cols row rest
      pure (sc :: cs, v :: vs)
    else buildLists cols row rest

/-- One iteration of the row loop (lines 178–234): skip rows with a
missing or empty Asset ID, otherwise build the column and value lists
and, when at least one column was found, format the insert
statement. -/
def rowInsert (cols : List String) (row : Row) : Except Unit (Option String) :=
  if row "Asset ID" = .missing ∨ row "Asset ID" = .text "" then .ok none
  else do
    let (cs, vs) ← buildLists cols row column_mapping
    if cs = [] then pure none
    else
      pure (some ("INSERT INTO public.investments (" ++
        String.intercalate ", " cs ++ ") VALUES (" ++
        String.intercalate ", " vs ++ ");"))

/-- `dropna(how='all')` (line 81): a row is dropped when every column
holds a missing value. -/
def rowAllNa (cols : List String) (row : Row) : Bool :=
  cols.all (fun c => row c = .missing)

/-- The Asset ID filter (line 82): keep rows whose Asset ID is neither
missing nor the empty string. -/
def assetOkB (row : Row) : Bool :=
  decide (row "Asset ID" ≠ .missing ∧ row "Asset ID" ≠ .text "")

/-- The DataFrame filtering (lines 80–82). -/
def cleanRows (cols : List String) (rows : List Row) : List Row :=
  (rows.filter (fun r => !rowAllNa cols r)).filter assetOkB

/-- The row loop, collecting one statement per emitted row. -/
def goRows (cols : List String) : List Row → Except Unit (List String)
  | [] => .ok []
  | r :: rest => do
    let s? ← rowInsert cols r
    let tail ← goRows cols rest
    pure (match s? with | some s => s :: tail | none => tail)

/-- The trailing timestamp statement (line 237). -/
def updateStmt : String := "UPDATE public.investments SET updated_at = NOW();"

/-- The whole SQL generation (lines 175–237), as the list of emitted
statements: the filtered rows' insert statements followed by the one
update statement.  An uncaught exception in any row aborts the run
(`Except.error`), in which case no complete statement list — in
particular no trailing update — is produced. -/
def emit (cols : List String) (rows : List Row) : Except Unit (List String) := do
  let is ← goRows cols (cleanRows cols rows)
  pure (is ++ [updateStmt])

/-- Truncation toward zero agrees with the floor on nonnegative
rationals and with the ceiling on negative ones. -/
theorem truncInt_eq_floor_or_ceil (q : ℚ) : truncInt q = if 0 ≤ q then ⌊q⌋ else ⌈q⌉ := by
  unfold truncInt
  by_cases h : 0 ≤ q
  · rw [if_pos h, Rat.floor_def]
    exact Int.tdiv_eq_ediv (Rat.num_nonneg.mpr h) (Int.ofNat_nonneg _)
  · rw [if_neg h]
    have h1 : ⌈q⌉ = -⌊-q⌋ := by rw [Int.floor_neg]; ring
    have h2 : (-q).num.tdiv (-q).den = ⌊-q⌋ := by
      rw [Rat.floor_def]
      exact Int.tdiv_eq_ediv (Rat.num_nonneg.mpr (by linarith [lt_of_not_le h]))
        (Int.ofNat_nonneg _)
    rw [h1, ← h2, Rat.neg_num, Rat.neg_den, Int.neg_tdiv, neg_neg]

/-- C2: every one of the six conversion functions maps a missing raw
value and the empty string to the absent result, before any
type-specific parsing (each equation is the first clause of the
corresponding definition). -/
theorem conversions_absent_on_missing_or_empty :
  clean_currency .missing = none ∧ clean_currency (.text "") = none ∧
  clean_percentage .missing = none ∧ clean_percentage (.text "") = none ∧
  clean_date .missing = none ∧ clean_date (.text "") = none ∧
  clean_boolean .missing = none ∧ clean_boolean (.text "") = none ∧
  clean_integer .missing = .ok none ∧ clean_integer (.text "") = .ok none ∧
  clean_decimal .missing = none ∧ clean_decimal (.text "") = none := by
  refine ⟨rfl, by decide, rfl, by decide, rfl, by decide, rfl, by decide, rfl,
    by decide, rfl, by decide⟩

/-- C1 counterexample: a percent-sign-free string and a native number
are returned unchanged by `clean_percentage`, not mapped to the absent
result as claimed. -/
theorem clean_percentage_not_absent_without_sign :
  clean_percentage (.text "5.25") = some (.str "5.25") ∧
  clean_percentage (.num 42) = some (.float (.finite 42)) := by decide

/-- C1 (amended): missing and empty input are absent; a string
containing a percent sign has every percent sign stripped and the rest
parsed as a decimal denoting the percentage value itself, absent on
parse failure; but non-string input and percent-sign-free strings are
returned unchanged rather than absent. -/
theorem clean_percentage_spec :
  clean_percentage .missing = none ∧
  clean_percentage (.text "") = none ∧
  (∀ s : String, s ≠ "" → '%' ∈ s.data →
    clean_percentage (.text s) = (pyFloat (s.data.filter (fun c => c ≠ '%'))).map PyVal.float) ∧
  (∀ s : String, s ≠ "" → '%' ∉ s.data → clean_percentage (.text s) = some (.str s)) ∧
  (∀ q : ℚ, clean_percentage (.num q) = some (.float (.finite q))) := by
  refine ⟨rfl, by decide, ?_, ?_, fun q => rfl⟩
  · intro s hs hm
    simp [clean_percentage, hs, hm]
  · intro s hs hm
    simp [clean_percentage, hs, hm]

/-- Witness for the amended C1 statement at concrete inputs. -/
theorem clean_percentage_spec_witness :
  clean_percentage (.text "5.25%") = some (.float (.finite (mkRat 525 100))) ∧
  clean_percentage (.text "abc") = some (.str "abc") := by
  constructor
  · exact (clean_percentage_spec.2.2.1 "5.25%" (by decide) (by decide)).trans (by decide)
  · exact clean_percentage_spec.2.2.2.1 "abc" (by decide) (by decide)

/-- C6 counterexample: on the string `"inf"` the integer conversion
neither returns a truncated integer nor the absent result — the
`int(float("inf"))` step raises an uncaught `OverflowError`. -/
theorem clean_integer_error_on_inf :
  clean_integer (.text "inf") = .error := by decide

/-- C6 (amended): a non-missing, non-empty input is parsed through a
float intermediate and truncated toward zero (floor on nonnegative
values, ceiling on negative ones), with absent on parse failure or
NaN — except that an infinite float intermediate raises an uncaught
error instead of returning. -/
theorem clean_integer_spec :
  (∀ q : ℚ, clean_integer (.num q) = .ok (some (truncInt q))) ∧
  (∀ s : String, pyFloat s.data = none → clean_integer (.text s) = .ok none) ∧
  (∀ (s : String) (q : ℚ), pyFloat s.data = some (.finite q) →
    clean_integer (.text s) = .ok (some (truncInt q))) ∧
  (∀ s : String, pyFloat s.data = some .nan → clean_integer (.text s) = .ok none) ∧
  (∀ s : String, pyFloat s.data = some .inf ∨ pyFloat s.data = some .neginf →
    clean_integer (.text s) = .error) ∧
  (∀ q : ℚ, 0 ≤ q → truncInt q = ⌊q⌋) ∧
  (∀ q : ℚ, q < 0 → truncInt q = ⌈q⌉) := by
  have hempty : pyFloat (String.data "") = none := by decide
  refine ⟨fun q => rfl, ?_, ?_, ?_, ?_, ?_, ?_⟩
  · intro s h
    by_cases hs : s = ""
    · subst hs; rfl
    · simp [clean_integer, hs, h]
  · intro s q h
    by_cases hs : s = ""
    · subst hs; rw [hempty] at h; cases h
    · simp [clean_integer, hs, h]
  · intro s h
    by_cases hs : s = ""
    · subst hs; rw [hempty] at h; cases h
    · simp [clean_integer, hs, h]
  · intro s h
    by_cases hs : s = ""
    · subst hs; rcases h with h | h <;> (rw [hempty] at h; cases h)
    · rcases h with h | h <;> simp [clean_integer, hs, h]
  · intro q hq
    rw [truncInt_eq_floor_or_ceil, if_pos hq]
  · intro q hq
    rw [truncInt_eq_floor_or_ceil, if_neg (not_le.mpr hq)]

/-- Witness for the amended C6 statement: `"42.9"` truncates to 42,
`"-42.9"` truncates toward zero to -42. -/
theorem clean_integer_spec_witness :
  clean_integer (.text "42.9") = .ok (some 42) ∧
  clean_integer (.text "-42.9") = .ok (some (-42)) ∧
  truncInt (-43 : ℚ) = ⌈(-43 : ℚ)⌉ := by
  refine ⟨?_, ?_, ?_⟩
  · exact (clean_integer_spec.2.2.1 "42.9" (mkRat 429 10) (by decide)).trans (by decide)
  · exact (clean_integer_spec.2.2.1 "-42.9" (mkRat (-429) 10) (by decide)).trans (by decide)
  · exact clean_integer_spec.2.2.2.2.2.2 (-43 : ℚ) (by decide)

/-- C7: the integer conversion is not total — a cell containing the
string `"Infinity"` (any spelling `float()` accepts for an infinite
value) makes `int(float(value))` raise an `OverflowError` that the
`except (ValueError, TypeError)` clause does not catch. -/
theorem clean_integer_raises_on_infinity :
  clean_integer (.text "Infinity") = .error := by decide

/-- C5: boolean conversion of a string is decided by its lower-cased,
stripped form — `some true` exactly on the recognised true set,
`some false` exactly on the recognised false set — and every
non-string input is absent. -/
theorem clean_boolean_spec :
  (∀ s : String, clean_boolean (.text s) = some true ↔
    (lowerStrip s = [ 'y', 'e', 's'] ∨ lowerStrip s = [ 't', 'r', 'u', 'e'] ∨
     lowerStrip s = [ '1'])) ∧
  (∀ s : String, clean_boolean (.text s) = some false ↔
    (lowerStrip s = [ 'n', 'o'] ∨ lowerStrip s = [ 'f', 'a', 'l', 's', 'e'] ∨
     lowerStrip s = [ '0'])) ∧
  (∀ q : ℚ, clean_boolean (.num q) = none) ∧
  clean_boolean .missing = none := by
  refine ⟨?_, ?_, fun q => rfl, rfl⟩
  · intro s
    by_cases hs : s = ""
    · subst hs; decide
    · simp only [clean_boolean, if_neg hs]
      split_ifs with h1 h2
      · simp only [eq_self_iff_true, true_iff]; exact h1
      · constructor
        · intro hc; cases hc
        · intro hc
          rcases h2 with h2 | h2 | h2 <;> rcases hc with hc | hc | hc <;>
            (rw [hc] at h2; cases h2)
      · constructor
        · intro hc; cases hc
        · intro hc; exact absurd hc h1
  · intro s
    by_cases hs : s = ""
    · subst hs; decide
    · simp only [clean_boolean, if_neg hs]
      split_ifs with h1 h2
      · constructor
        · intro hc; cases hc
        · intro hc
          rcases h1 with h1 | h1 | h1 <;> rcases hc with hc | hc | hc <;>
            (rw [hc] at h1; cases h1)
      · simp only [eq_self_iff_true, true_iff]; exact h2
      · constructor
        · intro hc; cases hc
        · intro hc; exact absurd hc h2

/-- Witness for C5 at the spec's example inputs. -/
theorem clean_boolean_spec_witness :
  clean_boolean (.text "Yes") = some true ∧
  clean_boolean (.text " TRUE ") = some true ∧
  clean_boolean (.text "No") = some false ∧
  clean_boolean (.text "0") = some false ∧
  clean_boolean (.num 1) = none := by
  refine ⟨?_, ?_, ?_, ?_, clean_boolean_spec.2.2.1 1⟩
  · exact (clean_boolean_spec.1 "Yes").mpr (by decide)
  · exact (clean_boolean_spec.1 " TRUE ").mpr (by decide)
  · exact (clean_boolean_spec.2.1 "No").mpr (by decide)
  · exact (clean_boolean_spec.2.1 "0").mpr (by decide)

/-- C4: the three date formats are tried in the fixed order
month/day/4-digit-year, month/day/2-digit-year, year-month-day, the
first success determining the result; if all fail the result is
absent, and every non-string input is absent. -/
theorem clean_date_spec :
  (∀ (s : String) (d : PyDate), parseMDY4 s.data = some d →
    clean_date (.text s) = some d) ∧
  (∀ (s : String) (d : PyDate), parseMDY4 s.data = none → parseMDY2 s.data = some d →
    clean_date (.text s) = some d) ∧
  (∀ s : String, parseMDY4 s.data = none → parseMDY2 s.data = none →
    clean_date (.text s) = parseYMD s.data) ∧
  (∀ q : ℚ, clean_date (.num q) = none) ∧
  clean_date .missing = none := by
  refine ⟨?_, ?_, ?_, fun q => rfl, rfl⟩
  · intro s d h
    by_cases hs : s = ""
    · subst hs
      rw [show parseMDY4 (String.data "") = none from by decide] at h
      cases h
    · simp [clean_date, hs, h, HOrElse.hOrElse, OrElse.orElse, Option.orElse]
  · intro s d h1 h2
    by_cases hs : s = ""
    · subst hs
      rw [show parseMDY2 (String.data "") = none from by decide] at h2
      cases h2
    · simp [clean_date, hs, h1, h2, HOrElse.hOrElse, OrElse.orElse, Option.orElse]
  · intro s h1 h2
    by_cases hs : s = ""
    · subst hs
      rw [show parseYMD (String.data "") = none from by decide]
      decide
    · simp [clean_date, hs, h1, h2, HOrElse.hOrElse, OrElse.orElse, Option.orElse]

/-- Witness for C4 at the spec's example inputs, including the
invalid-month rejection. -/
theorem clean_date_spec_witness :
  clean_date (.text "01/15/2024") = some ⟨2024, 1, 15⟩ ∧
  clean_date (.text "01/15/24") = some ⟨2024, 1, 15⟩ ∧
  clean_date (.text "2024-01-15") = some ⟨2024, 1, 15⟩ ∧
  clean_date (.text "15/01/2024") = none := by
  refine ⟨?_, ?_, ?_, ?_⟩
  · exact clean_date_spec.1 "01/15/2024" ⟨2024, 1, 15⟩ (by decide)
  · exact clean_date_spec.2.1 "01/15/24" ⟨2024, 1, 15⟩ (by decide) (by decide)
  · exact (clean_date_spec.2.2.1 "2024-01-15" (by decide) (by decide)).trans (by decide)
  · exact (clean_date_spec.2.2.1 "15/01/2024" (by decide) (by decide)).trans (by decide)

/-- Replacing open parentheses is the identity on a string containing
none. -/
theorem map_paren_id {t : List Char} (h : '(' ∉ t) :
    t.map (fun c => if c = '(' then '-' else c) = t := by
  induction t with
  | nil => rfl
  | cons c cs ih =>
    simp only [List.mem_cons, not_or] at h
    simp only [List.map_cons, if_neg (Ne.symm h.1), ih h.2]

/-- Deleting close parentheses is the identity on a string containing
none. -/
theorem filter_rparen_id {t : List Char} (h : ')' ∉ t) :
    t.filter (fun c => c ≠ ')') = t := by
  induction t with
  | nil => rfl
  | cons c cs ih =>
    simp only [List.mem_cons, not_or] at h
    simp only [List.filter_cons, ih h.2, if_pos (decide_eq_true (Ne.symm h.1))]

/-- C3: for non-missing, non-empty input the currency conversion
returns native numbers unchanged; a string is stripped of commas,
dollar signs and whitespace, and when the cleaned string is wrapped in
one pair of parentheses it is parsed as the parenthesised content with
a leading minus sign; a cleaned string containing no parentheses is
parsed directly.  In both string cases the result is exactly the float
parse, so a parse failure yields the absent result rather than an
error. -/
theorem clean_currency_spec :
  (∀ q : ℚ, clean_currency (.num q) = some (.finite q)) ∧
  (∀ (s : String) (t : List Char),
    s.data.filter (fun c => !currencyStrip c) = '(' :: (t ++ [ ')']) →
    '(' ∉ t → ')' ∉ t →
    clean_currency (.text s) = pyFloat ('-' :: t)) ∧
  (∀ s : String, s ≠ "" → ('(' ∉ s.data ∨ ')' ∉ s.data) →
    clean_currency (.text s) = pyFloat (s.data.filter (fun c => !currencyStrip c))) := by
  refine ⟨fun q => rfl, ?_, ?_⟩
  · intro s t hf hp1 hp2
    have hs : s ≠ "" := by
      intro h
      subst h
      exact List.noConfusion hf
    simp only [clean_currency, if_neg hs, hf]
    have hcond : '(' ∈ '(' :: (t ++ [ ')']) ∧ ')' ∈ '(' :: (t ++ [ ')']) :=
      ⟨List.mem_cons_self _ _, by simp⟩
    rw [parenAdjust, if_pos hcond]
    simp only [List.map_cons, List.map_append, map_paren_id hp1]
    have h1 : (fun c => if c = '(' then '-' else c) '(' = '-' := by decide
    have h2 : (fun c => if c = '(' then '-' else c) ')' = ')' := by decide
    simp only [List.map_cons, List.map_nil, h1, h2]
    simp only [List.filter_cons, List.filter_append, filter_rparen_id hp2]
    simp
  · intro s hs hp
    simp only [clean_currency, if_neg hs]
    rw [parenAdjust, if_neg]
    intro hcond
    rcases hp with hp | hp
    · exact hp (List.mem_of_mem_filter hcond.1)
    · exact hp (List.mem_of_mem_filter hcond.2)

/-- Witness for C3 at the spec's example inputs. -/
theorem clean_currency_spec_witness :
  clean_currency (.text "$1,200.50") = some (.finite (mkRat 12005 10)) ∧
  clean_currency (.text "(1,200.50)") = some (FloatVal.finite (mkRat 12005 10)).neg ∧
  clean_currency (.num (mkRat 24010 20)) = some (.finite (mkRat 12005 10)) ∧
  clean_currency (.text "abc") = none := by
  refine ⟨?_, ?_, ?_, ?_⟩
  · exact (clean_currency_spec.2.2 "$1,200.50" (by decide) (by decide)).trans (by decide)
  · exact (clean_currency_spec.2.1 "(1,200.50)" [ '1', '2', '0', '0', '.', '5', '0']
      (by decide) (by decide) (by decide)).trans (by decide)
  · exact clean_currency_spec.1 (mkRat 24010 20)
  · exact (clean_currency_spec.2.2 "abc" (by decide) (by decide)).trans (by decide)

/-- Shape of a successful columns/values accumulation: the column list
is exactly the mapped destination names of the source columns present,
and the value list is aligned with it one rendered value per column. -/
theorem buildLists_ok_shape :
    ∀ (mapping : List (String × String)) (cols : List String) (row : Row)
      (cs vs : List String),
    buildLists cols row mapping = .ok (cs, vs) →
    cs = (mapping.filter (fun p => decide (p.1 ∈ cols))).map Prod.snd ∧
    List.Forall₂ (fun (p : String × String) (v : String) =>
      renderCell p.2 (row p.1) = .ok v)
      (mapping.filter (fun p => decide (p.1 ∈ cols))) vs := by
  intro mapping
  induction mapping with
  | nil =>
    intro cols row cs vs h
    cases h
    exact ⟨rfl, List.Forall₂.nil⟩
  | cons p rest ih =>
    intro cols row cs vs h
    obtain ⟨ec, sc⟩ := p
    by_cases hm : ec ∈ cols
    · simp only [buildLists, if_pos hm] at h
      cases hr : renderCell sc (row ec) with
      | error e => rw [hr] at h; cases h
      | ok v =>
        rw [hr] at h
        cases hb : buildLists cols row rest with
        | error e => rw [hb] at h; cases h
        | ok pr =>
          obtain ⟨cs', vs'⟩ := pr
          rw [hb] at h
          cases h
          obtain ⟨hc, hf⟩ := ih cols row cs' vs' hb
          rw [List.filter_cons_of_pos (by simpa using hm)]
          exact ⟨by simpa using hc, List.Forall₂.cons hr hf⟩
    · simp only [buildLists, if_neg hm] at h
      obtain ⟨hc, hf⟩ := ih cols row cs vs h
      rw [List.filter_cons_of_neg (by simpa using hm)]
      exact ⟨hc, hf⟩

/-- C10: in every successfully built statement body the column-name
list and the value list have the same length and are index-aligned —
each mapped source column present in the input contributes exactly one
destination column name and exactly one rendered value at the same
position. -/
theorem insert_columns_values_aligned :
    ∀ (mapping : List (String × String)) (cols : List String) (row : Row)
      (cs vs : List String),
    buildLists cols row mapping = .ok (cs, vs) →
    cs.length = vs.length ∧
    cs = (mapping.filter (fun p => decide (p.1 ∈ cols))).map Prod.snd ∧
    List.Forall₂ (fun (p : String × String) (v : String) =>
      renderCell p.2 (row p.1) = .ok v)
      (mapping.filter (fun p => decide (p.1 ∈ cols))) vs := by
  intro mapping cols row cs vs h
  obtain ⟨hc, hf⟩ := buildLists_ok_shape mapping cols row cs vs h
  refine ⟨?_, hc, hf⟩
  rw [hc, List.length_map]
  exact hf.length_eq

/-- The end-to-end scenario row of the specification. -/
def testRow : Row := fun c =>
  if c = "Asset ID" then .text "A100"
  else if c = "Purchase Price" then .text "$250,000.00"
  else if c = "New Const?" then .text "Yes"
  else if c = "Maturity Date" then .text "12/31/2030"
  else .missing

/-- The source columns of the end-to-end scenario. -/
def testCols : List String := ["Asset ID", "Purchase Price", "New Const?", "Maturity Date"]

/-- The single-quote character as a one-character string, for writing
expected SQL literals without a quote inside a Lean string literal. -/
def quoteStr : String := String.mk [squote]

/-- Witness for C10 on the end-to-end scenario row. -/
theorem insert_columns_values_aligned_witness :
    (["asset_id", "new_construction", "purchase_price", "maturity_date"] : List String).length =
      ([quoteStr ++ "A100" ++ quoteStr, "TRUE", "250000.0", quoteStr ++ "2030-12-31" ++ quoteStr] : List String).length := by
  have h := insert_columns_values_aligned column_mapping testCols testRow
    ["asset_id", "new_construction", "purchase_price", "maturity_date"]
    [quoteStr ++ "A100" ++ quoteStr, "TRUE", "250000.0", quoteStr ++ "2030-12-31" ++ quoteStr] (by decide)
  exact h.1

/-- A row that passes the Asset ID filter has the `asset_id` column in
every successfully built column list (the Asset ID mapping entry is
always walked when the source column exists). -/
theorem buildLists_asset_mem {cols : List String} {row : Row} {cs vs : List String}
    (hA : "Asset ID" ∈ cols)
    (h : buildLists cols row column_mapping = .ok (cs, vs)) : "asset_id" ∈ cs := by
  obtain ⟨hc, -⟩ := buildLists_ok_shape column_mapping cols row cs vs h
  subst hc
  refine List.mem_map.mpr ⟨("Asset ID", "asset_id"), ?_, rfl⟩
  refine List.mem_filter.mpr ⟨?_, by simpa using hA⟩
  decide

/-- With the Asset ID column present, the `dropna(how='all')` filter is
subsumed by the Asset ID filter: the two filters together keep exactly
the rows with a non-missing, non-empty Asset ID. -/
theorem cleanRows_eq_filter {cols : List String} (rows : List Row)
    (hA : "Asset ID" ∈ cols) :
    cleanRows cols rows = rows.filter assetOkB := by
  unfold cleanRows
  rw [List.filter_filter]
  apply List.filter_congr
  intro r _
  cases h : assetOkB r with
  | false => rw [Bool.false_and]
  | true =>
    rw [Bool.true_and]
    have h1 : r "Asset ID" ≠ .missing := (of_decide_eq_true h).1
    cases hall : rowAllNa cols r with
    | false => rfl
    | true =>
      exfalso
      exact h1 (of_decide_eq_true (List.all_eq_true.mp hall "Asset ID" hA))

/-- A row passing the Asset ID filter yields exactly one insert
statement when the Asset ID source column is present. -/
theorem rowInsert_some {cols : List String} {row : Row} {s? : Option String}
    (hA : "Asset ID" ∈ cols) (hok : assetOkB row = true)
    (h : rowInsert cols row = .ok s?) : ∃ s, s? = some s := by
  have hcond := of_decide_eq_true hok
  unfold rowInsert at h
  rw [if_neg (by push_neg; exact hcond)] at h
  cases hb : buildLists cols row column_mapping with
  | error e => rw [hb] at h; cases h
  | ok pr =>
    obtain ⟨cs, vs⟩ := pr
    rw [hb] at h
    have hne : cs ≠ [] := by
      intro hnil
      subst hnil
      cases buildLists_asset_mem hA hb
    replace h : (if cs = [] then (pure none : Except Unit (Option String))
        else pure (some ("INSERT INTO public.investments (" ++
          String.intercalate ", " cs ++ ") VALUES (" ++
          String.intercalate ", " vs ++ ");"))) = .ok s? := h
    rw [if_neg hne] at h
    cases h
    exact ⟨_, rfl⟩

/-- The row loop emits exactly one statement per row when every row
passes the Asset ID filter. -/
theorem goRows_forall₂ (cols : List String) :
    ∀ (rs : List Row) (is : List String),
    "Asset ID" ∈ cols → (∀ r ∈ rs, assetOkB r = true) → goRows cols rs = .ok is →
    List.Forall₂ (fun (r : Row) (s : String) => rowInsert cols r = .ok (some s)) rs is := by
  intro rs
  induction rs with
  | nil =>
    intro is _ _ h
    cases h
    exact List.Forall₂.nil
  | cons r rest ih =>
    intro is hA hok h
    simp only [goRows] at h
    cases hr : rowInsert cols r with
    | error e => rw [hr] at h; cases h
    | ok s? =>
      rw [hr] at h
      cases hg : goRows cols rest with
      | error e => rw [hg] at h; cases h
      | ok tail =>
        rw [hg] at h
        obtain ⟨s, rfl⟩ := rowInsert_some hA (hok r (List.mem_cons_self r rest)) hr
        cases h
        exact List.Forall₂.cons hr (ih tail hA (fun x hx => hok x (List.mem_cons_of_mem r hx)) hg)

/-- C9 (amended): provided the run completes — no integer-typed cell
holds a string parsing to an infinite float, which would abort the
script with an uncaught error — the emitted statements are exactly one
insert statement per row whose Asset ID is non-missing and non-empty
(in order, rows without it silently contributing nothing), followed by
exactly one trailing update statement. -/
theorem emit_spec :
    ∀ (cols : List String) (rows : List Row) (res : List String),
    "Asset ID" ∈ cols → emit cols rows = .ok res →
    ∃ inserts : List String,
      res = inserts ++ [updateStmt] ∧
      List.Forall₂ (fun (r : Row) (s : String) => rowInsert cols r = .ok (some s))
        (rows.filter assetOkB) inserts := by
  intro cols rows res hA h
  unfold emit at h
  cases hg : goRows cols (cleanRows cols rows) with
  | error e => rw [hg] at h; cases h
  | ok is =>
    rw [hg] at h
    cases h
    refine ⟨is, rfl, ?_⟩
    rw [cleanRows_eq_filter rows hA] at hg
    refine goRows_forall₂ cols (rows.filter assetOkB) is hA ?_ hg
    intro r hr
    exact (List.mem_filter.mp hr).2

/-- A row whose Asset ID is present but whose Units cell (an
integer-typed column) holds the string `inf`. -/
def infRow : Row := fun c =>
  if c = "Asset ID" then .text "A1"
  else if c = "Units" then .text "inf"
  else .missing

/-- C9 counterexample: a row with a perfectly good Asset ID but an
integer-typed cell reading `inf` aborts the whole run with an uncaught
`OverflowError` — no insert statement is produced for the row and no
trailing update statement is written, contradicting the claim that
every such row yields exactly one insert plus the final update. -/
theorem emit_aborts_on_infinite_integer_cell :
    emit ["Asset ID", "Units"] [infRow] = .error () := by decide

/-- A row with data but a blank Asset ID, which the emitter must skip
silently. -/
def noIdRow : Row := fun c =>
  if c = "City" then .text "Boston"
  else if c = "Asset ID" then .text ""
  else .missing

/-- Witness for the amended C9 statement: one good row and one blank-id
row produce exactly one insert followed by the update statement. -/
theorem emit_spec_witness :
    ∃ inserts : List String,
      (["INSERT INTO public.investments (asset_id, new_construction, purchase_price, maturity_date) VALUES (" ++
        quoteStr ++ "A100" ++ quoteStr ++ ", TRUE, 250000.0, " ++ quoteStr ++ "2030-12-31" ++ quoteStr ++ ");",
        updateStmt] : List String) = inserts ++ [updateStmt] ∧
      List.Forall₂ (fun (r : Row) (s : String) => rowInsert testCols r = .ok (some s))
        ([testRow, noIdRow].filter assetOkB) inserts :=
  emit_spec testCols [testRow, noIdRow] _ (by decide) (by decide)

/-- Folding digits onto a nonzero accumulator scales it by the digit
count. -/
theorem foldl_digits_acc (cs : List Char) (a : Nat) :
    cs.foldl (fun x c => x * 10 + digVal c) a = a * 10 ^ cs.length + digitsVal cs := by
  induction cs generalizing a with
  | nil => simp [digitsVal]
  | cons c cs ih =>
    have hv : digitsVal (c :: cs) = digVal c * 10 ^ cs.length + digitsVal cs := by
      show List.foldl _ (0 * 10 + digVal c) cs = _
      rw [Nat.zero_mul, Nat.zero_add, ih (digVal c)]
    simp only [List.foldl_cons, List.length_cons, hv]
    rw [ih (a * 10 + digVal c)]
    ring

/-- The value of a concatenation of digit strings. -/
theorem digitsVal_append (xs ys : List Char) :
    digitsVal (xs ++ ys) = digitsVal xs * 10 ^ ys.length + digitsVal ys := by
  unfold digitsVal
  rw [List.foldl_append]
  exact foldl_digits_acc ys _

/-- The digit character of a digit has that value. -/
theorem digVal_digChar : ∀ d : Nat, d < 10 → digVal (digChar d) = d := by decide

/-- The digit character of a digit is a digit. -/
theorem isDig_digChar : ∀ d : Nat, d < 10 → isDig (digChar d) = true := by decide

/-- `natCharsAux` of zero is empty whatever the fuel. -/
theorem natCharsAux_zero : ∀ fuel : Nat, natCharsAux fuel 0 = [] := by
  intro fuel
  cases fuel <;> rfl

/-- With enough fuel, `natCharsAux` writes a nonzero number exactly:
its digit string is nonempty, all digits, and evaluates back to the
number. -/
theorem natCharsAux_spec :
    ∀ (fuel n : Nat), n ≤ fuel → n ≠ 0 →
    digitsVal (natCharsAux fuel n) = n ∧
    (∀ c ∈ natCharsAux fuel n, isDig c = true) ∧ natCharsAux fuel n ≠ [] := by
  intro fuel
  induction fuel with
  | zero => intro n h1 h2; omega
  | succ fuel ih =>
    intro n h1 h2
    obtain ⟨m, rfl⟩ : ∃ m, n = m + 1 := ⟨n - 1, by omega⟩
    have heq : natCharsAux (fuel + 1) (m + 1) =
        natCharsAux fuel ((m + 1) / 10) ++ [digChar ((m + 1) % 10)] := rfl
    rw [heq]
    have hmod : (m + 1) % 10 < 10 := Nat.mod_lt _ (by omega)
    have hone : digitsVal [digChar ((m + 1) % 10)] = (m + 1) % 10 := by
      show 0 * 10 + digVal (digChar ((m + 1) % 10)) = _
      rw [digVal_digChar _ hmod]
      omega
    by_cases hq : (m + 1) / 10 = 0
    · rw [hq, natCharsAux_zero, List.nil_append]
      refine ⟨?_, ?_, by simp⟩
      · rw [hone]; omega
      · intro c hc
        rw [List.mem_singleton] at hc
        subst hc
        exact isDig_digChar _ hmod
    · have hle : (m + 1) / 10 ≤ fuel := by
        have := Nat.div_lt_self (Nat.succ_pos m) (by omega : 1 < 10)
        omega
      obtain ⟨hv, hd, hne⟩ := ih ((m + 1) / 10) hle hq
      refine ⟨?_, ?_, by simp⟩
      · rw [digitsVal_append, hv, hone, List.length_singleton, pow_one]
        omega
      · intro c hc
        rcases List.mem_append.mp hc with hc | hc
        · exact hd c hc
        · rw [List.mem_singleton] at hc
          subst hc
          exact isDig_digChar _ hmod

/-- The rendering of a natural number is a nonempty digit string
evaluating back to the number. -/
theorem natChars_spec (m : Nat) :
    digitsVal (natChars m) = m ∧
    (∀ c ∈ natChars m, isDig c = true) ∧ natChars m ≠ [] := by
  by_cases h : m = 0
  · subst h; exact ⟨rfl, by decide, by decide⟩
  · unfold natChars
    rw [if_neg h]
    exact natCharsAux_spec m m le_rfl h

/-- Leading zero characters do not change a digit string's value. -/
theorem digitsVal_replicate_zero (k : Nat) (xs : List Char) :
    digitsVal (List.replicate k '0' ++ xs) = digitsVal xs := by
  induction k with
  | zero => rfl
  | succ k ih =>
    rw [List.replicate_succ, List.cons_append]
    show List.foldl _ (0 * 10 + digVal '0') _ = _
    have : 0 * 10 + digVal '0' = 0 := by decide
    rw [this]
    exact ih

/-- Value, digit-ness, and length of a left-padded digit string. -/
theorem padLeft_spec (cs : List Char) (l : Nat) (h : ∀ c ∈ cs, isDig c = true) :
    digitsVal (padLeft cs l) = digitsVal cs ∧
    (∀ c ∈ padLeft cs l, isDig c = true) ∧
    l ≤ (padLeft cs l).length := by
  unfold padLeft
  refine ⟨digitsVal_replicate_zero _ _, ?_, ?_⟩
  · intro c hc
    rcases List.mem_append.mp hc with hc | hc
    · rw [List.eq_of_mem_replicate hc]; decide
    · exact h c hc
  · rw [List.length_append, List.length_replicate]
    omega

/-- A scan stops exactly at the first character failing the predicate:
take/drop over a satisfied prefix followed by a failing character. -/
theorem takeWhile_dropWhile_split {p : Char → Bool} :
    ∀ {xs : List Char} {y : Char} {ys : List Char},
    (∀ c ∈ xs, p c = true) → p y = false →
    (xs ++ y :: ys).takeWhile p = xs ∧ (xs ++ y :: ys).dropWhile p = y :: ys := by
  intro xs
  induction xs with
  | nil =>
    intro y ys _ hy
    constructor
    · simp [List.takeWhile_cons, hy]
    · simp [List.dropWhile_cons, hy]
  | cons x xs ih =>
    intro y ys hall hy
    have hx : p x = true := hall x (List.mem_cons_self x xs)
    obtain ⟨h1, h2⟩ := @ih y ys (fun c hc => hall c (List.mem_cons_of_mem x hc)) hy
    constructor
    · simp [List.takeWhile_cons, hx, h1]
    · simp [List.dropWhile_cons, hx, h2]

/-- A scan over a fully satisfying list takes everything. -/
theorem takeWhile_dropWhile_all {p : Char → Bool} :
    ∀ {xs : List Char}, (∀ c ∈ xs, p c = true) →
    xs.takeWhile p = xs ∧ xs.dropWhile p = [] := by
  intro xs
  induction xs with
  | nil => intro _; exact ⟨rfl, rfl⟩
  | cons x xs ih =>
    intro hall
    have hx : p x = true := hall x (List.mem_cons_self x xs)
    obtain ⟨h1, h2⟩ := ih (fun c hc => hall c (List.mem_cons_of_mem x hc))
    constructor
    · simp [List.takeWhile_cons, hx, h1]
    · simp [List.dropWhile_cons, hx, h2]

/-- Dropping while a predicate fails everywhere drops nothing. -/
theorem dropWhile_of_all_false {p : Char → Bool} :
    ∀ {xs : List Char}, (∀ c ∈ xs, p c = false) → xs.dropWhile p = xs := by
  intro xs
  cases xs with
  | nil => intro _; rfl
  | cons x t =>
    intro hall
    simp [List.dropWhile_cons, hall x (List.mem_cons_self x t)]

/-- Trimming whitespace is the identity on a whitespace-free string. -/
theorem trimWs_id {cs : List Char} (h : ∀ c ∈ cs, pyWs c = false) : trimWs cs = cs := by
  unfold trimWs
  rw [dropWhile_of_all_false h,
    dropWhile_of_all_false (fun c hc => h c (List.mem_reverse.mp hc)),
    List.reverse_reverse]

/-- A digit character is not whitespace. -/
theorem pyWs_of_digit {c : Char} (h : isDig c = true) : pyWs c = false := by
  simp only [isDig, Bool.and_eq_true, decide_eq_true_eq] at h
  unfold pyWs
  simp only [Bool.or_eq_false_iff, decide_eq_false_iff_not]
  refine ⟨⟨⟨⟨⟨?_, ?_⟩, ?_⟩, ?_⟩, ?_⟩, ?_⟩ <;>
    (intro he; rw [he] at h; revert h; decide)

/-- A digit character lower-cases to itself. -/
theorem lowerAscii_of_digit {c : Char} (h : isDig c = true) : lowerAscii c = c := by
  simp only [isDig, Bool.and_eq_true, decide_eq_true_eq] at h
  unfold lowerAscii
  rw [if_neg]
  simp only [Bool.and_eq_true, decide_eq_true_eq, not_and]
  intro h1
  omega

/-- Structure of the fixed-point rendering: nonempty integer digits, a
point, exactly `k` fraction digits, evaluating back to `N`. -/
theorem renderNatFixed_split (N k : Nat) :
    ∃ ip fp : List Char,
      renderNatFixed N k = ip ++ '.' :: fp ∧
      ip ≠ [] ∧ fp.length = k ∧
      (∀ c ∈ ip, isDig c = true) ∧ (∀ c ∈ fp, isDig c = true) ∧
      digitsVal ip * 10 ^ k + digitsVal fp = N := by
  obtain ⟨hnv, hnd, hnne⟩ := natChars_spec N
  obtain ⟨hpv, hpd, hpl⟩ := padLeft_spec (natChars N) (k + 1) hnd
  refine ⟨(padLeft (natChars N) (k + 1)).take ((padLeft (natChars N) (k + 1)).length - k),
    (padLeft (natChars N) (k + 1)).drop ((padLeft (natChars N) (k + 1)).length - k),
    rfl, ?_, ?_, ?_, ?_, ?_⟩
  · intro h
    have hlt : (padLeft (natChars N) (k + 1)).length - k ≤ 0 := by
      have := congrArg List.length h
      rw [List.length_take] at this
      simp only [List.length_nil] at this
      omega
    omega
  · rw [List.length_drop]
    omega
  · intro c hc
    exact hpd c (List.mem_of_mem_take hc)
  · intro c hc
    exact hpd c (List.mem_of_mem_drop hc)
  · rw [show (10 : Nat) ^ k =
        10 ^ ((padLeft (natChars N) (k + 1)).drop
          ((padLeft (natChars N) (k + 1)).length - k)).length from by
      rw [List.length_drop]; congr 1; omega]
    rw [← digitsVal_append, List.take_append_drop, hpv, hnv]

/-- Parsing the fixed-point rendering of `N` with `k` fraction digits
recovers `N / 10^k`, and the rendering is whitespace-free with a digit
first character. -/
theorem parseDec_renderNatFixed (N k : Nat) :
    parseDec (renderNatFixed N k) = some (mkRat (N : ℤ) (10 ^ k)) ∧
    (∀ c ∈ renderNatFixed N k, pyWs c = false) ∧
    ∃ (c0 : Char) (rest : List Char),
      renderNatFixed N k = c0 :: rest ∧ isDig c0 = true := by
  obtain ⟨ip, fp, heq, hne, hlen, hipd, hfpd, hval⟩ := renderNatFixed_split N k
  obtain ⟨htake, hdrop⟩ :=
    @takeWhile_dropWhile_split isDig ip '.' fp hipd (show isDig '.' = false by decide)
  obtain ⟨hftake, hfdrop⟩ := takeWhile_dropWhile_all hfpd
  have hparse : parseDec (renderNatFixed N k) = some (mkRat (N : ℤ) (10 ^ k)) := by
    rw [heq]
    simp only [parseDec, htake, hdrop, fracSplit, hftake, hfdrop]
    rw [if_neg (by intro h; exact hne h.1)]
    unfold ratOfParts
    rw [if_pos le_rfl]
    simp only [Int.toNat_zero, pow_zero, mul_one, hlen, hval]
  refine ⟨hparse, ?_, ?_⟩
  · intro c hc
    rw [heq] at hc
    rcases List.mem_append.mp hc with hc | hc
    · exact pyWs_of_digit (hipd c hc)
    · rcases List.mem_cons.mp hc with hc | hc
      · subst hc; decide
      · exact pyWs_of_digit (hfpd c hc)
  · cases hip : ip with
    | nil => exact absurd hip hne
    | cons c0 ip' =>
      refine ⟨c0, ip' ++ '.' :: fp, by rw [heq, hip]; rfl, ?_⟩
      exact hipd c0 (by rw [hip]; exact List.mem_cons_self _ _)

/-- Value of `mkRat` at a numerator scaled from a rational's own
numerator and denominator: the absolute value of the rational. -/
theorem mkRat_scaled_eq (q : ℚ) (k N : Nat) (h : N * q.den = q.num.natAbs * 10 ^ k) :
    mkRat (N : ℤ) (10 ^ k) = if 0 ≤ q.num then q else -q := by
  have hden : ((q.den : ℚ)) ≠ 0 := Nat.cast_ne_zero.mpr (Rat.den_ne_zero q)
  have hpk : ((10 : ℚ)) ^ k ≠ 0 := by positivity
  have h1 : (N : ℚ) * (q.den : ℚ) = (q.num.natAbs : ℚ) * (10 : ℚ) ^ k := by
    exact_mod_cast h
  have h2 : ((q.num : ℚ)) = q * (q.den : ℚ) := (div_eq_iff hden).mp (Rat.num_div_den q)
  rw [Rat.mkRat_eq_div]
  push_cast
  rw [div_eq_iff hpk]
  by_cases hpos : 0 ≤ q.num
  · rw [if_pos hpos]
    have habs : ((q.num.natAbs : ℚ)) = (q.num : ℚ) := by
      rw [Int.cast_natAbs]
      exact_mod_cast abs_of_nonneg hpos
    apply mul_right_cancel₀ hden
    rw [h1, habs, h2]
    ring
  · rw [if_neg hpos]
    have habs : ((q.num.natAbs : ℚ)) = -(q.num : ℚ) := by
      rw [Int.cast_natAbs]
      exact_mod_cast abs_of_nonpos (le_of_lt (lt_of_not_le hpos))
    apply mul_right_cancel₀ hden
    rw [h1, habs, h2]
    ring

/-- A digit-headed string is parsed as a number, never as one of the
`inf` / `nan` keywords. -/
theorem parseUnsigned_head_digit {c0 : Char} {rest : List Char} (h : isDig c0 = true) :
    parseUnsigned (c0 :: rest) = (parseDec (c0 :: rest)).map FloatVal.finite := by
  simp only [parseUnsigned]
  split_ifs with h1 h2
  · exfalso
    simp only [Bool.or_eq_true, decide_eq_true_eq] at h1
    rcases h1 with h1 | h1 <;>
      (rw [List.map_cons] at h1
       injection h1 with e1 _
       rw [lowerAscii_of_digit h] at e1
       rw [e1] at h
       exact absurd h (by decide))
  · exfalso
    simp only [decide_eq_true_eq] at h2
    rw [List.map_cons] at h2
    injection h2 with e1 _
    rw [lowerAscii_of_digit h] at e1
    rw [e1] at h
    exact absurd h (by decide)
  · rfl

/-- Parsing the rendered form of a decimal rational (one whose
denominator divides the power of ten the renderer uses) with the float
parser recovers the rational exactly. -/
theorem pyFloat_renderRat (q : ℚ) (hq : q.den ∣ 10 ^ max 1 (decExp q.den)) :
    pyFloat (renderRat q) = some (.finite q) := by
  set k := max 1 (decExp q.den) with hk
  set N := q.num.natAbs * 10 ^ k / q.den with hN
  have hNval : N * q.den = q.num.natAbs * 10 ^ k := Nat.div_mul_cancel (hq.mul_left _)
  obtain ⟨hparse, hws, c0, rest, hcr, hc0⟩ := parseDec_renderNatFixed N k
  have hmk : mkRat (N : ℤ) (10 ^ k) = if 0 ≤ q.num then q else -q := mkRat_scaled_eq q k N hNval
  have hrender : renderRat q = (if q.num < 0 then [ '-'] else []) ++ renderNatFixed N k := rfl
  have hcne : c0 ≠ '+' := fun he => by rw [he] at hc0; exact absurd hc0 (by decide)
  have hcne2 : c0 ≠ '-' := fun he => by rw [he] at hc0; exact absurd hc0 (by decide)
  have hcore : parseUnsigned (renderNatFixed N k) = some (.finite (mkRat (N : ℤ) (10 ^ k))) := by
    rw [hcr, parseUnsigned_head_digit hc0, ← hcr, hparse]
    rfl
  by_cases hpos : 0 ≤ q.num
  · rw [hrender, if_neg (not_lt.mpr hpos), List.nil_append]
    unfold pyFloat
    rw [trimWs_id hws, hcr]
    show (if c0 = '+' then parseUnsigned rest
      else if c0 = '-' then (parseUnsigned rest).map FloatVal.neg
      else parseUnsigned (c0 :: rest)) = _
    rw [if_neg hcne, if_neg hcne2, ← hcr, hcore, hmk, if_pos hpos]
  · rw [hrender, if_pos (lt_of_not_le hpos)]
    unfold pyFloat
    have hws2 : ∀ c ∈ '-' :: renderNatFixed N k, pyWs c = false := by
      intro c hc
      rcases List.mem_cons.mp hc with hc | hc
      · subst hc; decide
      · exact hws c hc
    rw [List.singleton_append, trimWs_id hws2]
    show (if '-' = '+' then parseUnsigned (renderNatFixed N k)
      else if '-' = '-' then (parseUnsigned (renderNatFixed N k)).map FloatVal.neg
      else parseUnsigned ('-' :: renderNatFixed N k)) = _
    rw [if_neg (by decide), if_pos rfl, hcore, hmk, if_neg hpos]
    show some (FloatVal.finite (-(-q))) = some (FloatVal.finite q)
    rw [neg_neg]

/-- Parsing the plain digit rendering of a natural number recovers
it. -/
theorem parseDec_natChars (m : Nat) : parseDec (natChars m) = some ((m : ℚ)) := by
  obtain ⟨hv, hd, hne⟩ := natChars_spec m
  obtain ⟨htake, hdrop⟩ := takeWhile_dropWhile_all hd
  simp only [parseDec, htake, hdrop, fracSplit]
  rw [if_neg (fun h => hne h.1)]
  show some (ratOfParts (natChars m) [] 0) = some ((m : ℚ))
  unfold ratOfParts
  rw [if_pos le_rfl]
  simp only [List.length_nil, pow_zero, mul_one, hv, Int.toNat_zero,
    show digitsVal [] = 0 from rfl]
  norm_num [Rat.mkRat_one]

/-- Truncation toward zero is the identity on integers. -/
theorem truncInt_intCast (n : ℤ) : truncInt ((n : ℚ)) = n := by
  unfold truncInt
  rw [Rat.num_intCast, Rat.den_intCast]
  exact Int.tdiv_one n

/-- Parsing the integer rendering with the float parser recovers the
integer as a finite float. -/
theorem pyFloat_renderInt (n : ℤ) : pyFloat (renderInt n) = some (.finite ((n : ℚ))) := by
  obtain ⟨hv, hd, hne⟩ := natChars_spec n.natAbs
  have hws : ∀ c ∈ natChars n.natAbs, pyWs c = false := fun c hc => pyWs_of_digit (hd c hc)
  obtain ⟨c0, rest, hcr⟩ : ∃ c0 rest, natChars n.natAbs = c0 :: rest := by
    cases hc : natChars n.natAbs with
    | nil => exact absurd hc hne
    | cons a b => exact ⟨a, b, rfl⟩
  have hc0 : isDig c0 = true := hd c0 (by rw [hcr]; exact List.mem_cons_self _ _)
  have hcne : c0 ≠ '+' := fun he => by rw [he] at hc0; exact absurd hc0 (by decide)
  have hcne2 : c0 ≠ '-' := fun he => by rw [he] at hc0; exact absurd hc0 (by decide)
  have hcore : parseUnsigned (natChars n.natAbs) = some (.finite ((n.natAbs : ℚ))) := by
    rw [hcr, parseUnsigned_head_digit hc0, ← hcr, parseDec_natChars]
    rfl
  by_cases hpos : 0 ≤ n
  · have hr : renderInt n = natChars n.natAbs := by
      unfold renderInt
      rw [if_neg (not_lt.mpr hpos)]
    rw [hr]
    unfold pyFloat
    rw [trimWs_id hws, hcr]
    show (if c0 = '+' then parseUnsigned rest
      else if c0 = '-' then (parseUnsigned rest).map FloatVal.neg
      else parseUnsigned (c0 :: rest)) = _
    rw [if_neg hcne, if_neg hcne2, ← hcr, hcore]
    have he : ((n.natAbs : ℚ)) = (n : ℚ) := by
      rw [Int.cast_natAbs]
      exact_mod_cast abs_of_nonneg hpos
    rw [he]
  · have hr : renderInt n = '-' :: natChars n.natAbs := by
      unfold renderInt
      rw [if_pos (lt_of_not_le hpos)]
    rw [hr]
    unfold pyFloat
    have hws2 : ∀ c ∈ '-' :: natChars n.natAbs, pyWs c = false := by
      intro c hc
      rcases List.mem_cons.mp hc with hc | hc
      · subst hc; decide
      · exact hws c hc
    rw [trimWs_id hws2]
    show (if '-' = '+' then parseUnsigned (natChars n.natAbs)
      else if '-' = '-' then (parseUnsigned (natChars n.natAbs)).map FloatVal.neg
      else parseUnsigned ('-' :: natChars n.natAbs)) = _
    rw [if_neg (by decide), if_pos rfl, hcore]
    have he : ((n.natAbs : ℚ)) = -(n : ℚ) := by
      rw [Int.cast_natAbs]
      exact_mod_cast abs_of_nonpos (le_of_lt (lt_of_not_le hpos))
    show some (FloatVal.finite (-((n.natAbs : ℚ)))) = some (FloatVal.finite ((n : ℚ)))
    rw [he, neg_neg]

/-- A number below `10^k` renders in at most `k` digits. -/
theorem natCharsAux_length : ∀ (fuel n k : Nat), n ≤ fuel → n < 10 ^ k →
    (natCharsAux fuel n).length ≤ k := by
  intro fuel
  induction fuel with
  | zero =>
    intro n k h1 _
    have : n = 0 := by omega
    subst this
    rw [natCharsAux_zero]
    simp
  | succ fuel ih =>
    intro n k h1 h2
    cases n with
    | zero => rw [natCharsAux_zero]; simp
    | succ m =>
      have hk : k ≠ 0 := by
        intro h
        subst h
        simp only [pow_zero] at h2
        omega
      have heq : natCharsAux (fuel + 1) (m + 1) =
          natCharsAux fuel ((m + 1) / 10) ++ [digChar ((m + 1) % 10)] := rfl
      rw [heq, List.length_append, List.length_singleton]
      have hdiv : (m + 1) / 10 < 10 ^ (k - 1) := by
        rw [Nat.div_lt_iff_lt_mul (by omega : 0 < 10)]
        calc m + 1 < 10 ^ k := h2
        _ = 10 ^ (k - 1) * 10 := by
            rw [← pow_succ]
            congr 1
            omega
      have hle : (m + 1) / 10 ≤ fuel := by
        have := Nat.div_lt_self (Nat.succ_pos m) (by omega : 1 < 10)
        omega
      have := ih ((m + 1) / 10) (k - 1) hle hdiv
      omega

/-- Padding to a length at least the digit count gives that exact
length. -/
theorem padLeft_length_eq {cs : List Char} {l : Nat} (h : cs.length ≤ l) :
    (padLeft cs l).length = l := by
  unfold padLeft
  rw [List.length_append, List.length_replicate]
  omega

/-- Length bound for the rendering of a bounded number. -/
theorem natChars_length_le {m k : Nat} (h : m < 10 ^ k) (hk : 1 ≤ k) :
    (natChars m).length ≤ k := by
  unfold natChars
  split_ifs with h0
  · simpa using hk
  · exact natCharsAux_length m m k le_rfl h

/-- A zero-padded field of width `l` holding a number below `10^l`:
value, digit-ness, exact length. -/
theorem padded_field_spec (m l : Nat) (h : m < 10 ^ l) (hl : 1 ≤ l) :
    digitsVal (padLeft (natChars m) l) = m ∧
    (∀ c ∈ padLeft (natChars m) l, isDig c = true) ∧
    (padLeft (natChars m) l).length = l := by
  obtain ⟨hv, hd, _⟩ := natChars_spec m
  obtain ⟨hv2, hd2, _⟩ := padLeft_spec (natChars m) l hd
  exact ⟨hv2.trans hv, hd2, padLeft_length_eq (natChars_length_le h hl)⟩

/-- `sepSplit` on a digit field followed by a separator candidate. -/
theorem sepSplit_split {sep sep' : Char} {xs ys : List Char}
    (hxs : ∀ c ∈ xs, isDig c = true) (hs : isDig sep' = false) :
    sepSplit sep (xs ++ sep' :: ys) = if sep' = sep then some (xs, ys) else none := by
  obtain ⟨h1, h2⟩ := @takeWhile_dropWhile_split isDig xs sep' ys hxs hs
  unfold sepSplit
  rw [h1, h2]

/-- Splitting the ISO rendering of a date on `-` yields its three
padded fields; splitting it on `/` fails. -/
theorem dateSplit_renderDate (dt : PyDate) (hy : dt.year < 10000)
    (hm : dt.month < 100) (hd : dt.day < 100) :
    dateSplit '-' (renderDate dt) = some (padLeft (natChars dt.year) 4,
      (padLeft (natChars dt.month) 2, padLeft (natChars dt.day) 2)) ∧
    dateSplit '/' (renderDate dt) = none := by
  obtain ⟨-, hyd, -⟩ := padded_field_spec dt.year 4 hy (by omega)
  obtain ⟨-, hmd, -⟩ := padded_field_spec dt.month 2 hm (by omega)
  obtain ⟨-, hdd, -⟩ := padded_field_spec dt.day 2 hd (by omega)
  have e3 := takeWhile_dropWhile_all hdd
  have e1 : sepSplit '-' (renderDate dt) = some (padLeft (natChars dt.year) 4,
      padLeft (natChars dt.month) 2 ++ '-' :: padLeft (natChars dt.day) 2) := by
    show sepSplit '-' (padLeft (natChars dt.year) 4 ++ '-' ::
      (padLeft (natChars dt.month) 2 ++ '-' :: padLeft (natChars dt.day) 2)) = _
    rw [sepSplit_split hyd (by decide), if_pos rfl]
  have e2 : sepSplit '-' (padLeft (natChars dt.month) 2 ++ '-' :: padLeft (natChars dt.day) 2) =
      some (padLeft (natChars dt.month) 2, padLeft (natChars dt.day) 2) := by
    rw [sepSplit_split hmd (by decide), if_pos rfl]
  constructor
  · unfold dateSplit
    rw [e1]
    show (match sepSplit '-' (padLeft (natChars dt.month) 2 ++ '-' :: padLeft (natChars dt.day) 2) with
      | none => none
      | some (b, r3) =>
        if r3.dropWhile isDig = [] then
          some (padLeft (natChars dt.year) 4, b, r3.takeWhile isDig)
        else none) = _
    rw [e2]
    show (if (padLeft (natChars dt.day) 2).dropWhile isDig = [] then
      some (padLeft (natChars dt.year) 4, padLeft (natChars dt.month) 2,
        (padLeft (natChars dt.day) 2).takeWhile isDig)
      else none) = _
    rw [e3.2, if_pos rfl, e3.1]
  · have e1' : sepSplit '/' (renderDate dt) = none := by
      show sepSplit '/' (padLeft (natChars dt.year) 4 ++ '-' ::
        (padLeft (natChars dt.month) 2 ++ '-' :: padLeft (natChars dt.day) 2)) = _
      rw [sepSplit_split hyd (by decide), if_neg (by decide : ¬ ('-' : Char) = '/')]
    unfold dateSplit
    rw [e1']

/-- The ISO format parses the rendered date back exactly. -/
theorem parseYMD_renderDate (dt : PyDate) (h : validDate dt.year dt.month dt.day) :
    parseYMD (renderDate dt) = some dt := by
  obtain ⟨hy1, hy2, hm1, hm2, hd1, hd2⟩ := h
  have hy : dt.year < 10000 := by omega
  have hm : dt.month < 100 := by
    have : dt.month ≤ 12 := hm2
    omega
  have hd : dt.day < 100 := by
    have h31 : daysInMonth dt.year dt.month ≤ 31 := by
      unfold daysInMonth
      split_ifs <;> omega
    omega
  obtain ⟨hsplit, -⟩ := dateSplit_renderDate dt hy hm hd
  obtain ⟨hyv, -, hyl⟩ := padded_field_spec dt.year 4 hy (by omega)
  obtain ⟨hmv, -, hml⟩ := padded_field_spec dt.month 2 hm (by omega)
  obtain ⟨hdv, -, hdl⟩ := padded_field_spec dt.day 2 hd (by omega)
  unfold parseYMD
  rw [hsplit]
  show (if (padLeft (natChars dt.year) 4).length = 4 ∧
      1 ≤ (padLeft (natChars dt.month) 2).length ∧ (padLeft (natChars dt.month) 2).length ≤ 2 ∧
      1 ≤ (padLeft (natChars dt.day) 2).length ∧ (padLeft (natChars dt.day) 2).length ≤ 2 then
      mkDate (digitsVal (padLeft (natChars dt.year) 4)) (digitsVal (padLeft (natChars dt.month) 2))
        (digitsVal (padLeft (natChars dt.day) 2))
    else none) = some dt
  rw [if_pos ⟨hyl, by omega, by omega, by omega, by omega⟩, hyv, hmv, hdv]
  unfold mkDate
  rw [if_pos ⟨hy1, hy2, hm1, hm2, hd1, hd2⟩]

/-- Neither slash format matches the ISO rendering of a date. -/
theorem parseMDY_renderDate (dt : PyDate) (hy : dt.year < 10000)
    (hm : dt.month < 100) (hd : dt.day < 100) :
    parseMDY4 (renderDate dt) = none ∧ parseMDY2 (renderDate dt) = none := by
  obtain ⟨-, hsplit⟩ := dateSplit_renderDate dt hy hm hd
  constructor
  · unfold parseMDY4
    rw [hsplit]
  · unfold parseMDY2
    rw [hsplit]

/-- Parsing the rendered ISO form of a valid date through the full
date conversion recovers the date. -/
theorem clean_date_renderDate (dt : PyDate) (h : validDate dt.year dt.month dt.day) :
    clean_date (.text (String.mk (renderDate dt))) = some dt := by
  obtain ⟨hy1, hy2, hm1, hm2, hd1, hd2⟩ := h
  have hy : dt.year < 10000 := by omega
  have hm : dt.month < 100 := by omega
  have hd : dt.day < 100 := by
    have h31 : daysInMonth dt.year dt.month ≤ 31 := by
      unfold daysInMonth
      split_ifs <;> omega
    omega
  have hne : String.mk (renderDate dt) ≠ "" := by
    intro he
    have hdata : renderDate dt = [] := congrArg String.data he
    unfold renderDate at hdata
    exact absurd hdata (by simp)
  obtain ⟨hn4, hn2⟩ := parseMDY_renderDate dt hy hm hd
  simp only [clean_date, if_neg hne]
  rw [hn4, hn2, parseYMD_renderDate dt ⟨hy1, hy2, hm1, hm2, hd1, hd2⟩]
  rfl

/-- The boolean SQL literal the emitter writes: `str(b).upper()`. -/
def renderBool (b : Bool) : String := if b then "TRUE" else "FALSE"

/-- C8: rendering a non-absent typed value to its SQL literal and
parsing that literal back with the conversion for its type reproduces
the value — numerically for decimals (any rational the float parser
can produce, i.e. with denominator dividing the power of ten the
renderer uses) and integers, exactly for dates (parsed back from the
quoted ISO body) and booleans. -/
theorem sql_literal_roundtrip :
    (∀ q : ℚ, q.den ∣ 10 ^ max 1 (decExp q.den) →
      clean_decimal (.text (String.mk (renderRat q))) = some (.finite q)) ∧
    (∀ n : ℤ, clean_integer (.text (String.mk (renderInt n))) = .ok (some n)) ∧
    (∀ dt : PyDate, validDate dt.year dt.month dt.day →
      clean_date (.text (String.mk (renderDate dt))) = some dt) ∧
    (∀ b : Bool, clean_boolean (.text (renderBool b)) = some b) := by
  refine ⟨?_, ?_, clean_date_renderDate, by decide⟩
  · intro q hq
    have hne : String.mk (renderRat q) ≠ "" := by
      intro he
      have hdata : renderRat q = [] := congrArg String.data he
      obtain ⟨-, -, c0, rest, hcr, -⟩ := parseDec_renderNatFixed
        (q.num.natAbs * 10 ^ max 1 (decExp q.den) / q.den) (max 1 (decExp q.den))
      have hform : renderRat q = (if q.num < 0 then [ '-'] else []) ++
          renderNatFixed (q.num.natAbs * 10 ^ max 1 (decExp q.den) / q.den)
            (max 1 (decExp q.den)) := rfl
      rw [hform] at hdata
      obtain ⟨-, h2⟩ := List.append_eq_nil.mp hdata
      rw [hcr] at h2
      cases h2
    simp only [clean_decimal, if_neg hne]
    exact pyFloat_renderRat q hq
  · intro n
    have hne : String.mk (renderInt n) ≠ "" := by
      intro he
      have hdata : renderInt n = [] := congrArg String.data he
      obtain ⟨-, -, hnn⟩ := natChars_spec n.natAbs
      unfold renderInt at hdata
      by_cases hneg : n < 0
      · rw [if_pos hneg] at hdata
        cases hdata
      · rw [if_neg hneg] at hdata
        exact hnn hdata
    simp only [clean_integer, if_neg hne]
    rw [pyFloat_renderInt n]
    show IntResult.ok (some (truncInt ((n : ℚ)))) = .ok (some n)
    rw [truncInt_intCast]

/-- Witness for C8 at concrete values of all four types. -/
theorem sql_literal_roundtrip_witness :
    clean_decimal (.text (String.mk (renderRat (mkRat 12005 10)))) =
      some (.finite (mkRat 12005 10)) ∧
    clean_integer (.text (String.mk (renderInt (-42)))) = .ok (some (-42)) ∧
    clean_date (.text (String.mk (renderDate ⟨2030, 12, 31⟩))) = some ⟨2030, 12, 31⟩ ∧
    clean_boolean (.text (renderBool true)) = some true := by
  refine ⟨?_, ?_, ?_, ?_⟩
  · exact sql_literal_roundtrip.1 (mkRat 12005 10) (by decide)
  · exact sql_literal_roundtrip.2.1 (-42)
  · exact sql_literal_roundtrip.2.2.1 ⟨2030, 12, 31⟩ (by decide)
  · exact sql_literal_roundtrip.2.2.2 true
